import Mathlib

/-!
# Verification of the bun-pyroscope profiler core

Shallow embedding of the repository's folded-stack codec (`src/converter.ts`),
label encoding (`src/labels.ts`) and windowed profiling loop / delivery
pipeline (`src/profiler.ts`), together with theorems settling the frozen
claims about the natural-language specification.

Conventions of the embedding:
* JavaScript numbers used as tree-node ids and byte counts are modelled as
  `Nat`; timestamps and line numbers (which may be negative, e.g. `-1`) as
  `Int`; the sample-rate arithmetic is carried out in `ℚ` with Mathlib's
  `round` standing for `Math.round` (both are `⌊x + 1/2⌋` on the inputs that
  occur here).
* A JavaScript `Map` populated by repeated `set` calls is modelled by
  `jsMapGet` over the insertion-ordered list of `(key, value)` pairs: the
  last insertion for a key wins, exactly as in `Map.set`.
* Optional fields (`samples`, `timeDeltas`, `children`) are `Option`s.
-/

namespace BunPyroscope

/-- CDP call frame (`src/types.ts`, `CdpCallFrame`); `scriptId` and
`columnNumber` are never read by the code under verification and are
omitted. -/
structure CdpCallFrame where
  functionName : String
  url : String
  lineNumber : Int
  deriving DecidableEq, Repr

/-- CDP profile node (`src/types.ts`, `CdpNode`); `hitCount` is never read. -/
structure CdpNode where
  id : Nat
  callFrame : CdpCallFrame
  children : Option (List Nat)
  deriving DecidableEq, Repr

/-- CDP CPU profile (`src/types.ts`, `CdpProfile`). `samples` is an `Option`
because the converter guards against a missing array at runtime. -/
structure CdpProfile where
  nodes : List CdpNode
  startTime : Int
  endTime : Int
  samples : Option (List Nat)
  timeDeltas : Option (List Int)
  deriving DecidableEq, Repr

/-- Node of a sampling heap profile (`src/types.ts`, `HeapProfileNode`). -/
inductive HeapProfileNode where
  | mk (id : Nat) (callFrame : CdpCallFrame) (selfSize : Nat)
      (children : List HeapProfileNode)

def HeapProfileNode.callFrame : HeapProfileNode → CdpCallFrame
  | .mk _ cf _ _ => cf

def HeapProfileNode.selfSize : HeapProfileNode → Nat
  | .mk _ _ s _ => s

def HeapProfileNode.children : HeapProfileNode → List HeapProfileNode
  | .mk _ _ _ cs => cs

/-- Sampling heap profile (`src/types.ts`, `SamplingHeapProfile`). -/
structure SamplingHeapProfile where
  head : HeapProfileNode

/-- Lookup in a JavaScript `Map` built by inserting the listed pairs in
order: the LAST insertion for a key wins (`Map.set` overwrites). -/
def jsMapGet (pairs : List (Nat × α)) (k : Nat) : Option α :=
  ((pairs.filter (fun p => p.1 == k)).getLast?).map (fun p => p.2)

/-! ## JavaScript string primitives

The embedding models JavaScript string operations (`trim`, `startsWith`,
`slice`, `split`, locale-free comparison) as structurally recursive
functions over the character list of the string, so that every definition
evaluates inside the kernel. -/

/-- JavaScript `String.prototype.trim`: strip leading and trailing
whitespace. -/
def jsTrim (s : String) : String :=
  String.mk (((s.data.dropWhile Char.isWhitespace).reverse.dropWhile
    Char.isWhitespace).reverse)

/-- JavaScript `String.prototype.startsWith`. -/
def jsStartsWith (s pre : String) : Bool :=
  pre.data.isPrefixOf s.data

/-- JavaScript `String.prototype.slice(n)` for `n ≥ 0`: drop the first `n`
code units. -/
def jsDrop (s : String) (n : Nat) : String :=
  String.mk (s.data.drop n)

/-- JavaScript `String.prototype.split(sep)` for a one-character separator,
over the character list. The result is never empty. -/
def splitChar (sep : Char) : List Char → List (List Char)
  | [] => [[]]
  | c :: rest =>
    match splitChar sep rest with
    | [] => [[c]]
    | h :: t => if c = sep then [] :: h :: t else (c :: h) :: t

/-- JavaScript `url.split("/")`. -/
def jsSplitSlash (s : String) : List String :=
  (splitChar '/' s.data).map String.mk

/-- Code-unit comparison of character lists (the outcome of
`localeCompare` for the ASCII label keys that occur here). -/
def charListLe : List Char → List Char → Bool
  | [], _ => true
  | _ :: _, [] => false
  | a :: as, b :: bs =>
    if a.toNat < b.toNat then true
    else if b.toNat < a.toNat then false
    else charListLe as bs

/-- String comparison used to model `a.localeCompare(b)` in
`src/labels.ts`. -/
def strLe (a b : String) : Bool :=
  charListLe a.data b.data

/-- Stable insertion of `a` into a sorted list: `a` goes before the first
element it compares less-or-equal to. -/
def insertSorted (le : α → α → Bool) (a : α) : List α → List α
  | [] => [a]
  | b :: rest => if le a b then a :: b :: rest else b :: insertSorted le a rest

/-- Stable sort (models the stable JavaScript `Array.prototype.sort`). -/
def sortBy (le : α → α → Bool) : List α → List α
  | [] => []
  | x :: rest => insertSorted le x (sortBy le rest)

/-- Function shouldSkipFrame from `src/converter.ts`: frames excluded from folded
stacks — `"(root)"`, `"(idle)"`, and profiler-overhead frames whose url is
`"node:inspector"`. -/
def shouldSkipFrame (functionName url : String) : Bool :=
  if functionName = "(root)" || functionName = "(idle)" then true
  else if url = "node:inspector" then true
  else false

/-- Function isRoot from `src/converter.ts`: the walk stops at this frame. -/
def isRoot (functionName : String) : Bool :=
  functionName = "(root)"

/-- JavaScript `parts.slice(-2)`: the last two elements (all of them when
there are fewer than two). -/
def lastTwo (parts : List String) : List String :=
  parts.drop (parts.length - 2)

/-- Function frameLabel from `src/converter.ts`. `trim() || "(anonymous)"` yields
`"(anonymous)"` exactly when the trimmed name is empty; an empty url is
falsy; the url is shortened to its last two `/`-separated segments ONLY when
it starts with `"file://"`. -/
def frameLabel (cf : CdpCallFrame) : String :=
  let name := if jsTrim cf.functionName = "" then "(anonymous)" else jsTrim cf.functionName
  if cf.url = "" then name
  else
    let shortUrl :=
      if jsStartsWith cf.url ("file://") then
        let stripped := jsDrop cf.url 7
        String.intercalate ("/") (lastTwo (jsSplitSlash stripped))
      else cf.url
    if cf.lineNumber ≥ 0 then
      name ++ " (" ++ shortUrl ++ ":" ++ toString cf.lineNumber ++ ")"
    else
      name ++ " (" ++ shortUrl ++ ")"

/-- The `id → node` map of `convertToFolded` (step 1), as insertion-ordered
pairs. -/
def nodePairs (p : CdpProfile) : List (Nat × CdpNode) :=
  p.nodes.map (fun n => (n.id, n))

/-- The `childId → parentId` map of `convertToFolded` (step 2), as
insertion-ordered pairs. -/
def parentPairs (p : CdpProfile) : List (Nat × Nat) :=
  (p.nodes.map (fun n => (n.children.getD []).map (fun c => (c, n.id)))).flatten

/-- The upward walk of `convertToFolded` (step 3a–3c): starting from
`currentId`, visit at most `fuel` nodes, stopping on a missing node or the
`(root)` frame, collecting labels of non-skipped frames leaf-first. The
source runs this with `fuel = 512` (`MAX_DEPTH`). -/
def walkLoop (nodeGet : Nat → Option CdpNode) (parentGet : Nat → Option Nat) :
    Nat → Option Nat → List String
  | 0, _ => []
  | _, none => []
  | fuel + 1, some currentId =>
    match nodeGet currentId with
    | none => []
    | some node =>
      if isRoot node.callFrame.functionName then []
      else
        let rest := walkLoop nodeGet parentGet fuel (parentGet currentId)
        if shouldSkipFrame node.callFrame.functionName node.callFrame.url then rest
        else frameLabel node.callFrame :: rest

/-- Constant MAX_DEPTH from `src/converter.ts`. -/
def MAX_DEPTH : Nat := 512

/-- Labels collected for one sample, root→leaf (the source collects
leaf-first and reverses, step 3d). -/
def collectedFrames (p : CdpProfile) (leafId : Nat) : List String :=
  (walkLoop (jsMapGet (nodePairs p)) (jsMapGet (parentPairs p)) MAX_DEPTH
    (some leafId)).reverse

/-- The aggregation key of one sample: the `;`-joined root→leaf labels, or
`none` when the collected list is empty (the sample is discarded). -/
def stackKey (p : CdpProfile) (leafId : Nat) : Option String :=
  let frames := collectedFrames p leafId
  if frames = [] then none else some (String.intercalate (";") frames)

/-- The keys (one per kept sample, in sample order) that the source feeds
into the `stackCounts` map. -/
def sampleKeys (p : CdpProfile) : List String :=
  match p.samples with
  | none => []
  | some ss => ss.filterMap (stackKey p)

/-- The update `stackCounts.set(stackStr, (stackCounts.get(stackStr) ?? 0) + 1)` on an
insertion-ordered association list. -/
def bumpCount : List (String × Nat) → String → List (String × Nat)
  | [], k => [(k, 1)]
  | (k', v) :: rest, k =>
    if k' = k then (k', v + 1) :: rest else (k', v) :: bumpCount rest k

/-- The final `stackCounts` map of `convertToFolded`, as an
insertion-ordered association list. -/
def stackCounts (p : CdpProfile) : List (String × Nat) :=
  (sampleKeys p).foldl bumpCount []

/-- Step 4 of `convertToFolded`: serialize `"stack count"` lines. -/
def renderCounts (counts : List (String × Nat)) : String :=
  String.intercalate ("\n") (counts.map (fun kc => kc.1 ++ " " ++ toString kc.2))

/-- Function convertToFolded from `src/converter.ts`. -/
def convertToFolded (p : CdpProfile) : String :=
  match p.samples with
  | none => ""
  | some [] => ""
  | some _ => renderCounts (stackCounts p)

/-- Function calculateSampleRate from `src/converter.ts`, with `Math.round` over
exact rationals. -/
def calculateSampleRate (p : CdpProfile) : Int :=
  match p.samples with
  | none => 100
  | some [] => 100
  | some ss =>
    let durationUs : Int := p.endTime - p.startTime
    if durationUs ≤ 0 then 100
    else round ((ss.length : ℚ) / (durationUs : ℚ) * 1000000)

/-- The accumulated path after visiting a node (`nextFrames` in the source
`walk`): unchanged at the root and at skipped frames, extended with the
node\x27s label otherwise. -/
def nextFramesOf (cf : CdpCallFrame) (frames : List String) : List String :=
  if isRoot cf.functionName || shouldSkipFrame cf.functionName cf.url then frames
  else frames ++ [frameLabel cf]

mutual
/-- The recursive `walk` of `convertHeapToFolded` from `src/converter.ts`:
at each node compute the next path, emit one `"path selfSize"` line when
`selfSize > 0` and the path is non-empty, then recurse into the children.
Lines are returned in emission order. -/
def heapWalk : HeapProfileNode → List String → List String
  | .mk _ cf selfSize children, frames =>
    let nextFrames := nextFramesOf cf frames
    let here :=
      if selfSize > 0 && nextFrames.length > 0 then
        [String.intercalate (";") nextFrames ++ " " ++ toString selfSize]
      else []
    here ++ heapWalkList children nextFrames
/-- Walk of a list of sibling nodes, in order. -/
def heapWalkList : List HeapProfileNode → List String → List String
  | [], _ => []
  | c :: cs, frames => heapWalk c frames ++ heapWalkList cs frames
end

/-- Function convertHeapToFolded from `src/converter.ts`. -/
def convertHeapToFolded (p : SamplingHeapProfile) : String :=
  String.intercalate ("\n") (heapWalk p.head [])

mutual
/-- Specification-side companion of `heapWalk`, following the claim\x27s
words: visit every node, recording the accumulated label path (which
advances only at non-root, non-skipped nodes) together with the node\x27s
self size. -/
def pathSizes : HeapProfileNode → List String → List (List String × Nat)
  | .mk _ cf selfSize children, frames =>
    let nextFrames := nextFramesOf cf frames
    (nextFrames, selfSize) :: pathSizesList children nextFrames
/-- Paths and sizes of a list of sibling nodes, in order. -/
def pathSizesList : List HeapProfileNode → List String → List (List String × Nat)
  | [], _ => []
  | c :: cs, frames => pathSizes c frames ++ pathSizesList cs frames
end

/-- The line the claim assigns to one visited node: emitted exactly when the
self size is positive and the accumulated path is non-empty. -/
def lineOfPathSize (ps : List String × Nat) : Option String :=
  if ps.2 > 0 && ps.1.length > 0 then
    some (String.intercalate (";") ps.1 ++ " " ++ toString ps.2)
  else none

mutual
/-- Every node of the heap tree has self size zero. -/
def allZero : HeapProfileNode → Bool
  | .mk _ _ selfSize children => selfSize == 0 && allZeroList children
/-- Every node of every tree in the list has self size zero. -/
def allZeroList : List HeapProfileNode → Bool
  | [] => true
  | c :: cs => allZero c && allZeroList cs
end

/-- Replacement for characters forbidden in label keys
(`/[{}=,\s]/g → "_"` in `src/labels.ts`). -/
def sanitizeKey (k : String) : String :=
  String.mk (k.data.map (fun c =>
    if c = '\x7b' || c = '\x7d' || c = '=' || c = ',' || c.isWhitespace then '_' else c))

/-- Replacement for characters forbidden in label values
(`/[{}=,]/g → "_"` in `src/labels.ts`). -/
def sanitizeValue (v : String) : String :=
  String.mk (v.data.map (fun c =>
    if c = '\x7b' || c = '\x7d' || c = '=' || c = ',' then '_' else c))

/-- Function encodePyroscopeName from `src/labels.ts`. The function takes
only the application name and the label map; the suffix `".cpu"` is
hard-coded. Labels render sorted by key (JavaScript `localeCompare`
modelled as code-unit order; a stable merge sort models the stable
`Array.prototype.sort`). -/
def encodePyroscopeName (appName : String) (labels : List (String × String)) : String :=
  if labels = [] then appName ++ ".cpu"
  else
    let sorted := sortBy (fun a b => strLe a.1 b.1) labels
    let labelStr := String.intercalate (",")
      (sorted.map (fun kv => sanitizeKey kv.1 ++ "=" ++ sanitizeValue kv.2))
    appName ++ ".cpu" ++ "\x7b" ++ labelStr ++ "\x7d"

/-- The `name` query parameter computed by `buildIngestUrl` in
`src/profiler.ts`. The call site passes the stream type as a third argument
— `encodePyroscopeName(this.config.appName, this.config.labels, type)` —
but `encodePyroscopeName` declares only two parameters, so the stream type
is silently dropped. -/
def ingestName (appName : String) (labels : List (String × String))
    (_streamType : String) : String :=
  encodePyroscopeName appName labels

/-- The `(name, sampleRate)` pair of the push issued by `flushHeapWindow` in
`src/profiler.ts`: `this.pushWithRetry(folded, windowStart, windowEnd, 1,
"alloc_space")`, whose URL is built by `buildIngestUrl(from, until, 1,
"alloc_space")`. -/
def flushHeapPush (appName : String) (labels : List (String × String)) :
    String × Nat :=
  (ingestName appName labels ("alloc_space"), 1)

/-- Outcome of one `fetch` attempt inside `pushWithRetry`: an HTTP response
with its status and body text, or a transport-level error carrying the
`Error` message. -/
inductive FetchOutcome where
  | http (status : Nat) (text : String)
  | netErr (message : String)
  deriving DecidableEq, Repr

/-- The `Error` message attached to a failed attempt: `pushWithRetry` builds
`new Error(\x60HTTP \x24\x7bresponse.status\x7d: \x24\x7btext\x7d\x60)`
for HTTP failures and keeps the transport error as is. -/
def errMessage : FetchOutcome → String
  | .http s text => "HTTP " ++ toString s ++ ": " ++ text
  | .netErr m => m

/-- Result of one `pushWithRetry` run: `attemptsMade` counts the `fetch`
calls issued, `delays` the backoff sleeps performed (in milliseconds, in
order). -/
inductive PushResult where
  | success (attemptsMade : Nat) (delays : List Nat)
  | failure (err : FetchOutcome) (attemptsMade : Nat) (delays : List Nat)
  deriving DecidableEq, Repr

/-- The backoff before retry attempt `attempt`
(`Math.min(1000 * 2 ** (attempt - 1), 30_000)` in `src/profiler.ts`). -/
def backoffDelay (attempt : Nat) : Nat :=
  min (1000 * 2 ^ (attempt - 1)) 30000

/-- The retry loop of `pushWithRetry` (`src/profiler.ts`): attempt numbers
count up from 0; `fuel` is the number of loop iterations left
(`maxRetries + 1 - attempt`); a positive attempt first sleeps
`backoffDelay attempt`. `response.ok` is status 200–299; a non-ok 4xx
status throws immediately; the catch block re-throws any error whose
message starts with `"HTTP 4"` and records every other error as
`lastError` for the next iteration. After the loop, `lastError` (if any)
is thrown, otherwise the promise resolves. -/
def retryLoop (outcomes : Nat → FetchOutcome) :
    Nat → Nat → Option FetchOutcome → List Nat → PushResult
  | attempt, 0, lastErr, delays =>
    match lastErr with
    | some e => .failure e attempt delays
    | none => .success attempt delays
  | attempt, fuel + 1, _lastError, delays =>
    let delays' := if attempt > 0 then delays ++ [backoffDelay attempt] else delays
    match outcomes attempt with
    | .http s text =>
      if 200 ≤ s && s ≤ 299 then .success (attempt + 1) delays'
      else if 400 ≤ s && s < 500 then .failure (.http s text) (attempt + 1) delays'
      else retryLoop outcomes (attempt + 1) fuel (some (.http s text)) delays'
    | .netErr m =>
      if jsStartsWith m ("HTTP 4") then .failure (.netErr m) (attempt + 1) delays'
      else retryLoop outcomes (attempt + 1) fuel (some (.netErr m)) delays'

/-- Function pushWithRetry from `src/profiler.ts`, abstracted over the
sequence of fetch outcomes: `for (attempt = 0; attempt <= maxRetries;
attempt++)`. -/
def pushWithRetry (maxRetries : Nat) (outcomes : Nat → FetchOutcome) : PushResult :=
  retryLoop outcomes 0 (maxRetries + 1) none []

/-- An outcome on which the loop returns successfully (`response.ok`). -/
def outcomeOk : FetchOutcome → Bool
  | .http s _ => 200 ≤ s && s ≤ 299
  | .netErr _ => false

/-- An outcome on which the loop fails immediately without retrying: a 4xx
HTTP response, or an error whose message starts with `"HTTP 4"`. -/
def outcomeFatal : FetchOutcome → Bool
  | .http s _ => 400 ≤ s && s < 500
  | .netErr m => jsStartsWith m ("HTTP 4")

/-- An outcome the loop retries: neither a success nor immediately fatal. -/
def outcomeRetryable (o : FetchOutcome) : Bool :=
  !outcomeOk o && !outcomeFatal o

/-- The backoff sleeps performed by a run whose first attempt is `attempt`
and which performs `n` further attempts (attempt 0 sleeps nothing). -/
def segDelays : Nat → Nat → List Nat
  | attempt, 0 => if attempt = 0 then [] else [backoffDelay attempt]
  | attempt, n + 1 =>
    (if attempt = 0 then [] else [backoffDelay attempt]) ++ segDelays (attempt + 1) n

/-- Observable session / scheduler actions of the window state machine
(`src/profiler.ts`). `closeWindow ls` summarizes one execution of
`endWindowAndPush` — `Profiler.stop`, conversion, the fire-and-forget CPU
push (and the heap stop/restart/push when heap profiling is on) — all of
which encode their ingest names under the label set `ls` current at that
moment. -/
inductive ProfEvent where
  | connect
  | disconnect
  | post (method : String)
  | closeWindow (labels : List (String × String))
  | scheduleTimer
  | clearTimer
  | logWarn
  deriving DecidableEq, Repr

/-- Mutable state of a `BunPyroscope` instance (`src/profiler.ts`):
`running`, whether `session` is non-null, whether `pushTimer` is non-null,
the mutable `config.heap.enabled` flag, and the mutable `config.labels`
map. -/
structure ProfState where
  running : Bool
  hasSession : Bool
  hasTimer : Bool
  heapEnabled : Bool
  labels : List (String × String)
  deriving DecidableEq, Repr

/-- JavaScript object spread `{...base, ...extra}`: keys of `base` keep
their position with values overridden by `extra` on collision; keys only in
`extra` are appended in their order. -/
def overlayLabels (base extra : List (String × String)) :
    List (String × String) :=
  base.map (fun kv =>
    match (extra.filter (fun e => e.1 == kv.1)).getLast? with
    | some e => (kv.1, e.2)
    | none => kv) ++
  extra.filter (fun e => base.all (fun kv => kv.1 != e.1))

/-- Method endWindowAndPush of `src/profiler.ts`: a no-op without a session;
otherwise `Profiler.stop`, conversion, and the fire-and-forget push(es)
under the current label set (plus the heap stop-sampling / restart when
heap profiling is enabled). Snapshot-retrieval and push failures are caught
and logged inside, so the call never throws and never changes the state. -/
def endWindowAndPush (s : ProfState) : List ProfEvent :=
  if s.hasSession then
    [.post ("Profiler.stop")] ++
    (if s.heapEnabled then
      [.post ("HeapProfiler.stopSampling"), .post ("HeapProfiler.startSampling")]
    else []) ++
    [.closeWindow s.labels]
  else []

/-- Method beginWindow of `src/profiler.ts`: a no-op without a session or
when not running; otherwise `Profiler.start` (failure only logged) and,
when `schedule` is set, `scheduleNextWindow` arms the push timer. -/
def beginWindow (s : ProfState) (schedule : Bool) : ProfState × List ProfEvent :=
  if !s.hasSession || !s.running then (s, [])
  else if schedule then
    ({ s with hasTimer := true }, [.post ("Profiler.start"), .scheduleTimer])
  else (s, [.post ("Profiler.start")])

/-- Method start of `src/profiler.ts`. `initOk` is whether the
`Profiler.enable` / `Profiler.setSamplingInterval` posts succeed (failure
disconnects and throws); `heapInitOk` is whether the optional
`HeapProfiler.enable` / `startSampling` posts succeed (failure only
disables heap mode, leaving `config.heap.enabled` equal to the conjunction
of the request and the enable success). Already running: log a warning and
return with no session interaction. -/
def start (initOk heapInitOk : Bool) (s : ProfState) :
    Except String ProfState × List ProfEvent :=
  if s.running then (.ok s, [.logWarn])
  else if !initOk then
    (.error ("failed to initialize profiler session"),
      [.connect, .post ("Profiler.enable"), .disconnect])
  else
    let heapEvents : List ProfEvent :=
      if s.heapEnabled then
        [.post ("HeapProfiler.enable"), .post ("HeapProfiler.startSampling")]
      else []
    let s3 : ProfState :=
      { s with
        hasSession := true
        running := true
        heapEnabled := s.heapEnabled && heapInitOk }
    let begun := beginWindow s3 true
    (.ok begun.1,
      [.connect, .post ("Profiler.enable"), .post ("Profiler.setSamplingInterval")] ++
        heapEvents ++ begun.2)

/-- Method stop of `src/profiler.ts`. Not running: return immediately with
no session interaction. Otherwise: clear `running`, cancel a pending timer,
final flush (failure only logged), `HeapProfiler.disable` when heap was on,
disconnect and drop the session. -/
def stop (s : ProfState) : ProfState × List ProfEvent :=
  if !s.running then (s, [])
  else
    let s1 := { s with running := false }
    let evClear : List ProfEvent := if s1.hasTimer then [.clearTimer] else []
    let s2 := { s1 with hasTimer := false }
    let evFlush := endWindowAndPush s2
    if s2.hasSession then
      let evHeap : List ProfEvent :=
        if s2.heapEnabled then [.post ("HeapProfiler.disable")] else []
      ({ s2 with hasSession := false }, evClear ++ evFlush ++ evHeap ++ [.disconnect])
    else (s2, evClear ++ evFlush)

/-- Method tag of `src/profiler.ts`, abstracted over the wrapped function:
`fnOutcome` is what `fn` returns (`.ok`) or throws (`.error`);
`timerFiredDuringFn` is whether a push timer is pending when `fn`
completes (the defensive cancellation in step 5 of the source). Not
running or no session: run `fn` and propagate its outcome with no session
interaction. Otherwise: cancel the pending timer, flush the current window
under the current labels, overlay the extra labels, open an unscheduled
tagged window, run `fn`, and — in a `finally` block, on both outcomes —
cancel any pending timer, flush the tagged window under the overlaid
labels, restore the saved labels and (still running) reopen a scheduled
window. The outcome of `fn` is returned / re-thrown unchanged. -/
def tag (s : ProfState) (extra : List (String × String))
    (fnOutcome : Except ε α) (timerFiredDuringFn : Bool) :
    Except ε α × ProfState × List ProfEvent :=
  if !s.running || !s.hasSession then (fnOutcome, s, [])
  else
    let ev1 : List ProfEvent := if s.hasTimer then [.clearTimer] else []
    let s1 := { s with hasTimer := false }
    let ev2 := endWindowAndPush s1
    let saved := s1.labels
    let s2 := { s1 with labels := overlayLabels saved extra }
    let opened := beginWindow s2 false
    let s3 := { opened.1 with hasTimer := timerFiredDuringFn }
    let ev4 : List ProfEvent := if s3.hasTimer then [.clearTimer] else []
    let s4 := { s3 with hasTimer := false }
    let ev5 := endWindowAndPush s4
    let s5 := { s4 with labels := saved }
    let reopened := if s5.running then beginWindow s5 true else (s5, [])
    (fnOutcome, reopened.1, ev1 ++ ev2 ++ opened.2 ++ ev4 ++ ev5 ++ reopened.2)

/-- The label sets under which windows were closed and pushed, in order. -/
def closeLabels (evs : List ProfEvent) : List (List (String × String)) :=
  evs.filterMap (fun e =>
    match e with
    | .closeWindow ls => some ls
    | _ => none)

/-! ## Helper lemmas about the stack-count association list -/

/-- The keys of an association list, in order. -/
def keysOf (l : List (String × Nat)) : List String := l.map Prod.fst

/-- First-match lookup (the `Map.get` of an insertion-ordered association
list whose keys are distinct). -/
def lookupCount : List (String × Nat) → String → Option Nat
  | [], _ => none
  | (k', v) :: rest, k => if k' = k then some v else lookupCount rest k

theorem lookupCount_bump_self (l : List (String × Nat)) (k : String) :
    lookupCount (bumpCount l k) k = some ((lookupCount l k).getD 0 + 1) := by
  induction l with
  | nil => simp [bumpCount, lookupCount]
  | cons kv rest ih =>
    obtain ⟨k', v⟩ := kv
    by_cases h : k' = k
    · subst h
      simp [bumpCount, lookupCount]
    · simp [bumpCount, lookupCount, h, ih]

theorem lookupCount_bump_ne (l : List (String × Nat)) (k q : String) (h : q ≠ k) :
    lookupCount (bumpCount l k) q = lookupCount l q := by
  induction l with
  | nil => simp [bumpCount, lookupCount, Ne.symm h]
  | cons kv rest ih =>
    obtain ⟨k', v⟩ := kv
    by_cases h2 : k' = k
    · subst h2
      simp [bumpCount, lookupCount, Ne.symm h]
    · simp only [bumpCount, if_neg h2]
      by_cases h3 : k' = q
      · simp [lookupCount, h3]
      · simp [lookupCount, h3, ih]

theorem keysOf_bump (l : List (String × Nat)) (k : String) :
    keysOf (bumpCount l k) =
      if k ∈ keysOf l then keysOf l else keysOf l ++ [k] := by
  induction l with
  | nil => simp [bumpCount, keysOf]
  | cons kv rest ih =>
    obtain ⟨k', v⟩ := kv
    by_cases h : k' = k
    · subst h
      simp [bumpCount, keysOf]
    · simp only [bumpCount, if_neg h, keysOf, List.map_cons] at ih ⊢
      rw [ih]
      by_cases h2 : k ∈ rest.map Prod.fst
      · simp [h2, Ne.symm h]
      · simp [h2, Ne.symm h]

theorem nodup_keysOf_bump (l : List (String × Nat)) (k : String)
    (h : (keysOf l).Nodup) : (keysOf (bumpCount l k)).Nodup := by
  rw [keysOf_bump]
  by_cases h2 : k ∈ keysOf l
  · simpa [h2] using h
  · rw [if_neg h2]
    refine List.Nodup.append h (List.nodup_singleton k) ?_
    intro a ha hk
    rw [List.mem_singleton] at hk
    exact h2 (hk ▸ ha)

theorem lookupCount_foldl (ks : List String) : ∀ (acc : List (String × Nat)) (k : String),
    lookupCount (ks.foldl bumpCount acc) k =
      if ks.count k = 0 then lookupCount acc k
      else some ((lookupCount acc k).getD 0 + ks.count k) := by
  induction ks with
  | nil => simp
  | cons a tl ih =>
    intro acc k
    rw [List.foldl_cons, ih]
    by_cases h : a = k
    · subst h
      rw [lookupCount_bump_self]
      by_cases h2 : tl.count a = 0
      · simp [h2, List.count_cons]
      · have h3 : (a :: tl).count a = tl.count a + 1 := by simp [List.count_cons]
        rw [h3]
        simp only [if_neg h2]
        have h4 : ¬(tl.count a + 1 = 0) := by omega
        simp only [if_neg h4, Option.getD_some]
        congr 1
        omega
    · rw [lookupCount_bump_ne _ _ _ (Ne.symm h)]
      have h3 : (a :: tl).count k = tl.count k := by
        simp [List.count_cons, Ne.symm h]
      rw [h3]

theorem nodup_keysOf_foldl (ks : List String) :
    ∀ (acc : List (String × Nat)), (keysOf acc).Nodup →
      (keysOf (ks.foldl bumpCount acc)).Nodup := by
  induction ks with
  | nil => exact fun _ h => h
  | cons a tl ih =>
    intro acc h
    exact ih _ (nodup_keysOf_bump _ _ h)

theorem mem_iff_lookupCount (l : List (String × Nat))
    (h : (keysOf l).Nodup) (s : String) (c : Nat) :
    (s, c) ∈ l ↔ lookupCount l s = some c := by
  induction l with
  | nil => simp [lookupCount]
  | cons kv rest ih =>
    obtain ⟨k', v⟩ := kv
    simp only [keysOf, List.map_cons, List.nodup_cons] at h
    by_cases h2 : k' = s
    · subst h2
      have hl : lookupCount ((k', v) :: rest) k' = some v := by
        simp [lookupCount]
      rw [hl]
      constructor
      · intro hm
        rcases List.mem_cons.1 hm with hh | hh
        · have h5 : c = v := congrArg Prod.snd hh
          rw [h5]
        · exact absurd (List.mem_map_of_mem Prod.fst hh) h.1
      · intro hv
        rw [Option.some_inj] at hv
        exact List.mem_cons.2 (Or.inl (by rw [hv]))
    · have hl : lookupCount ((k', v) :: rest) s = lookupCount rest s := by
        simp [lookupCount, h2]
      rw [hl, ← ih h.2]
      constructor
      · intro hm
        rcases List.mem_cons.1 hm with hh | hh
        · exact absurd (congrArg Prod.fst hh).symm h2
        · exact hh
      · exact fun hh => List.mem_cons.2 (Or.inr hh)

theorem keysOf_stackCounts_nodup (p : CdpProfile) :
    (keysOf (stackCounts p)).Nodup :=
  nodup_keysOf_foldl _ _ (by simp [keysOf])

theorem mem_stackCounts (p : CdpProfile) (s : String) (c : Nat) :
    (s, c) ∈ stackCounts p ↔
      s ∈ sampleKeys p ∧ c = (sampleKeys p).count s := by
  rw [mem_iff_lookupCount _ (keysOf_stackCounts_nodup p), stackCounts,
    lookupCount_foldl]
  by_cases h : (sampleKeys p).count s = 0
  · simp only [h, if_pos rfl, lookupCount]
    rw [List.count_eq_zero] at h
    simp [h]
  · simp only [if_neg h, lookupCount, Option.getD_none, Nat.zero_add,
      Option.some.injEq]
    have hmem : s ∈ sampleKeys p := by
      by_contra hc
      exact h (List.count_eq_zero.2 hc)
    constructor
    · rintro rfl
      exact ⟨hmem, rfl⟩
    · rintro ⟨_, rfl⟩
      rfl

/-- For a profile with a (possibly empty) sample array, the folded output
is the rendering of the stack-count association list. -/
theorem convertToFolded_eq_renderCounts (p : CdpProfile) :
    ∀ (ss : List Nat), p.samples = some ss →
      convertToFolded p = renderCounts (stackCounts p) := by
  intro ss hs
  match ss, hs with
  | [], hs =>
    have hk : sampleKeys p = [] := by simp [sampleKeys, hs]
    simp only [convertToFolded, hs, stackCounts, hk, renderCounts, List.foldl_nil,
      List.map_nil]
    rfl
  | a :: tl, hs =>
    simp [convertToFolded, hs]

/-! ## Concrete fixtures (taken from the repository's test suite) -/

/-- Convenience constructor for a CPU profile node. -/
def mkNode (id : Nat) (name : String) (url : String) (line : Int)
    (children : Option (List Nat)) : CdpNode :=
  ⟨id, ⟨name, url, line⟩, children⟩

/-- Chain `(root) → A → B → C` with one sample at `C`
(test "correctly reverses frame order"). -/
def profChain : CdpProfile :=
  ⟨[mkNode 1 ("(root)") ("") (-1) (some [2]), mkNode 2 ("A") ("") (-1) (some [3]),
    mkNode 3 ("B") ("") (-1) (some [4]), mkNode 4 ("C") ("") (-1) none],
   0, 1000000, some [4], none⟩

/-- Five samples all resolving to the same two-frame stack
(test "aggregates identical stacks into a single count"). -/
def profFive : CdpProfile :=
  ⟨[mkNode 1 ("(root)") ("") (-1) (some [2]),
    mkNode 2 ("heavyWork") ("") (-1) (some [3]),
    mkNode 3 ("doSomething") ("") (-1) none],
   0, 1000000, some [3, 3, 3, 3, 3], none⟩

/-! ## C1 -/

/-- C1: for every CPU snapshot and sample sequence, `convertToFolded` emits
one `"stack count"` line per distinct stack — the output is the rendering
of the `stackCounts` association list, whose keys are pairwise distinct and
are exactly the (non-empty, root-to-leaf, `;`-joined) stacks resolved from
the samples, each mapped to the number of samples resolving to it; a sample
whose collected label list is empty contributes nothing. Concretely, the
chain `root→A→B→C` with one sample at `C` yields exactly `"A;B;C 1"`, and
five samples resolving to one stack yield a single line of weight 5. -/
theorem convertToFolded_aggregates :
    (∀ (p : CdpProfile) (ss : List Nat), p.samples = some ss →
      convertToFolded p = renderCounts (stackCounts p)) ∧
    (∀ p : CdpProfile, (keysOf (stackCounts p)).Nodup) ∧
    (∀ (p : CdpProfile) (s : String) (c : Nat),
      (s, c) ∈ stackCounts p ↔
        s ∈ sampleKeys p ∧ c = (sampleKeys p).count s) ∧
    convertToFolded profChain = "A;B;C 1" ∧
    convertToFolded profFive = "heavyWork;doSomething 5" :=
  ⟨convertToFolded_eq_renderCounts, keysOf_stackCounts_nodup, mem_stackCounts,
    by decide, by decide⟩

/-- Witness for C1: the theorem applied at the chain profile. -/
theorem convertToFolded_aggregates_witness :
    convertToFolded profChain = renderCounts (stackCounts profChain) ∧
    (("A;B;C", 1) ∈ stackCounts profChain ↔
      "A;B;C" ∈ sampleKeys profChain ∧
        1 = (sampleKeys profChain).count ("A;B;C")) :=
  ⟨convertToFolded_aggregates.1 profChain [4] rfl,
   convertToFolded_aggregates.2.2.1 profChain ("A;B;C") 1⟩

/-! ## C3 -/

/-- The label formatter exactly as claim C3 words it: the leading
`file://` scheme is stripped when present and the last-two-segment
shortening is applied to EVERY url, not only `file://` ones. -/
def frameLabelClaimC3 (cf : CdpCallFrame) : String :=
  let name := if jsTrim cf.functionName = "" then "(anonymous)" else jsTrim cf.functionName
  if cf.url = "" then name
  else
    let stripped := if jsStartsWith cf.url ("file://") then jsDrop cf.url 7 else cf.url
    let shortUrl := String.intercalate ("/") (lastTwo (jsSplitSlash stripped))
    if cf.lineNumber ≥ 0 then
      name ++ " (" ++ shortUrl ++ ":" ++ toString cf.lineNumber ++ ")"
    else
      name ++ " (" ++ shortUrl ++ ")"

/-- Non-`file://` frame with a multi-segment url, on which the source and
the claim disagree. -/
def cfHttps : CdpCallFrame := ⟨"f", "https://x.com/a/b.ts", 3⟩

/-- Counterexample to C3 as stated: for a url that does not start with
`file://`, `frameLabel` keeps the url whole, while the claim's
every-url shortening would keep only the last two segments. -/
theorem frameLabel_no_shortening_without_file_scheme :
    frameLabel cfHttps = "f (https://x.com/a/b.ts:3)" ∧
    frameLabelClaimC3 cfHttps = "f (a/b.ts:3)" ∧
    frameLabel cfHttps ≠ frameLabelClaimC3 cfHttps :=
  ⟨by decide, by decide, by decide⟩

/-- The name part of a frame label: the trimmed function name, or
`"(anonymous)"` when that is empty. -/
def frameNameOf (functionName : String) : String :=
  if jsTrim functionName = "" then "(anonymous)" else jsTrim functionName

/-- The url part of a frame label per the amended claim: the last two
`/`-separated segments of the scheme-stripped url when the url starts with
`file://`, the url unchanged otherwise. -/
def shortUrlOf (url : String) : String :=
  if jsStartsWith url ("file://") then
    String.intercalate ("/") (lastTwo (jsSplitSlash (jsDrop url 7)))
  else url

/-- The label formatter as the amended claim words it. -/
def frameLabelAmended (cf : CdpCallFrame) : String :=
  if cf.url = "" then frameNameOf cf.functionName
  else if cf.lineNumber ≥ 0 then
    frameNameOf cf.functionName ++ " (" ++ shortUrlOf cf.url ++ ":" ++
      toString cf.lineNumber ++ ")"
  else frameNameOf cf.functionName ++ " (" ++ shortUrlOf cf.url ++ ")"

/-- C3 (amended): `frameLabel` strips a leading `file://` scheme and keeps
only the last two `/`-separated segments for `file://` urls ONLY (other
urls are kept whole), returns `"name (shortUrl:line)"` when the line
number is `≥ 0` and `"name (shortUrl)"` otherwise, the name alone for a
frame without url, and the name is the literal `"(anonymous)"` exactly
when the function name is empty or whitespace. -/
theorem frameLabel_eq_amended :
    (∀ cf : CdpCallFrame, frameLabel cf = frameLabelAmended cf) ∧
    (∀ cf : CdpCallFrame, cf.url = "" → frameLabel cf = frameNameOf cf.functionName) ∧
    (∀ cf : CdpCallFrame, jsTrim cf.functionName = "" → cf.url = "" →
      frameLabel cf = "(anonymous)") := by
  have h : ∀ cf : CdpCallFrame, frameLabel cf = frameLabelAmended cf := by
    intro cf
    unfold frameLabel frameLabelAmended frameNameOf shortUrlOf
    by_cases h1 : cf.url = "" <;> simp [h1]
  refine ⟨h, fun cf h1 => ?_, fun cf h2 h1 => ?_⟩
  · rw [h cf, frameLabelAmended, if_pos h1]
  · rw [h cf, frameLabelAmended, if_pos h1, frameNameOf, if_pos h2]

/-- Witness for C3: the amended characterization applied to a whitespace
anonymous frame without url. -/
theorem frameLabel_eq_amended_witness :
    frameLabel ⟨" ", "", 7⟩ = "(anonymous)" :=
  frameLabel_eq_amended.2.2 ⟨" ", "", 7⟩ (by decide) rfl

/-! ## C4 -/

theorem filterMap_flatten_list {β γ : Type} (f : β → Option γ) :
    ∀ ls : List (List β),
      List.filterMap f ls.flatten = (ls.map (List.filterMap f)).flatten := by
  intro ls
  induction ls with
  | nil => rfl
  | cons h t ih => simp [List.filterMap_append, ih]

theorem heapWalk_eq_aux : ∀ (k : Nat) (n : HeapProfileNode), sizeOf n ≤ k →
    ∀ fr, heapWalk n fr = (pathSizes n fr).filterMap lineOfPathSize := by
  intro k
  induction k with
  | zero =>
    intro n h
    obtain ⟨i, cf, ss, cs⟩ := n
    simp [HeapProfileNode.mk.sizeOf_spec] at h
  | succ k ih =>
    intro n h fr
    obtain ⟨i, cf, ss, cs⟩ := n
    have hcs : ∀ c ∈ cs, ∀ fr2, heapWalk c fr2 = (pathSizes c fr2).filterMap lineOfPathSize := by
      intro c hc fr2
      apply ih
      have h2 := List.sizeOf_lt_of_mem hc
      simp only [HeapProfileNode.mk.sizeOf_spec] at h
      omega
    have hlist : ∀ (l : List HeapProfileNode),
        (∀ c ∈ l, ∀ fr2, heapWalk c fr2 = (pathSizes c fr2).filterMap lineOfPathSize) →
        ∀ fr2, heapWalkList l fr2 = (pathSizesList l fr2).filterMap lineOfPathSize := by
      intro l
      induction l with
      | nil => intro _ fr2; rfl
      | cons c cs2 ihl =>
        intro hall fr2
        rw [heapWalkList, pathSizesList, List.filterMap_append,
          hall c (List.mem_cons_self c cs2) fr2,
          ihl (fun d hd => hall d (List.mem_cons_of_mem c hd)) fr2]
    rw [heapWalk, pathSizes]
    simp only [List.filterMap_cons, lineOfPathSize]
    by_cases hc2 : (ss > 0 && (nextFramesOf cf fr).length > 0) = true
    · simp only [hc2, if_pos rfl, hlist cs hcs]
      rfl
    · rw [Bool.not_eq_true] at hc2
      simp only [hc2, Bool.false_eq_true, if_false, hlist cs hcs]
      rfl

theorem heapWalk_eq_pathSizes (n : HeapProfileNode) (fr : List String) :
    heapWalk n fr = (pathSizes n fr).filterMap lineOfPathSize :=
  heapWalk_eq_aux (sizeOf n) n le_rfl fr

theorem pathSizes_allZero_aux : ∀ (k : Nat) (n : HeapProfileNode), sizeOf n ≤ k →
    allZero n = true → ∀ fr ps, ps ∈ pathSizes n fr → ps.2 = 0 := by
  intro k
  induction k with
  | zero =>
    intro n h
    obtain ⟨i, cf, ss, cs⟩ := n
    simp [HeapProfileNode.mk.sizeOf_spec] at h
  | succ k ih =>
    intro n h hz fr ps hps
    obtain ⟨i, cf, ss, cs⟩ := n
    rw [allZero, Bool.and_eq_true, beq_iff_eq] at hz
    have hcs : ∀ c ∈ cs, allZero c = true → ∀ fr2 ps2, ps2 ∈ pathSizes c fr2 → ps2.2 = 0 := by
      intro c hc
      apply ih
      have h2 := List.sizeOf_lt_of_mem hc
      simp only [HeapProfileNode.mk.sizeOf_spec] at h
      omega
    have hallz : ∀ c ∈ cs, allZero c = true := by
      have hl : ∀ l : List HeapProfileNode, allZeroList l = true → ∀ c ∈ l, allZero c = true := by
        intro l
        induction l with
        | nil => intro _ c hc; cases hc
        | cons d ds ihl =>
          intro hh c hc
          rw [allZeroList, Bool.and_eq_true] at hh
          rcases List.mem_cons.1 hc with rfl | hc2
          · exact hh.1
          · exact ihl hh.2 c hc2
      exact hl cs hz.2
    have hlmem : ∀ l : List HeapProfileNode,
        (∀ c ∈ l, ∀ fr2 ps2, ps2 ∈ pathSizes c fr2 → ps2.2 = 0) →
        ∀ fr2 ps2, ps2 ∈ pathSizesList l fr2 → ps2.2 = 0 := by
      intro l
      induction l with
      | nil => intro _ fr2 ps2 hps2; cases hps2
      | cons d ds ihl =>
        intro hall fr2 ps2 hps2
        rw [pathSizesList] at hps2
        rcases List.mem_append.1 hps2 with hh | hh
        · exact hall d (List.mem_cons_self d ds) fr2 ps2 hh
        · exact ihl (fun e he => hall e (List.mem_cons_of_mem d he)) fr2 ps2 hh
    rw [pathSizes] at hps
    rcases List.mem_cons.1 hps with rfl | hh
    · exact hz.1
    · exact hlmem cs (fun c hc => hcs c hc (hallz c hc)) _ ps hh

/-- Heap tree `(root) → parent → (idle, selfSize 512)`: the idle node's
self size attributes to the visible ancestor's path. -/
def heapIdleProfile : SamplingHeapProfile :=
  ⟨.mk 1 ⟨"(root)", "", -1⟩ 0 [.mk 2 ⟨"parent", "", -1⟩ 0 [.mk 3 ⟨"(idle)", "", -1⟩ 512 []]]⟩

/-- C4: `convertHeapToFolded` emits exactly one `"path selfSize"` line per
node with positive self size and non-empty accumulated path (the walk's
lines are the filtered rendering of the path/size pairs of all nodes,
where the path advances only at non-root, non-skipped nodes); a tree whose
nodes all have self size 0 yields `""`; and self size on a skipped node
attributes to the nearest visible ancestor's path:
`(root)→parent→(idle, 512)` yields `"parent 512"`. -/
theorem convertHeapToFolded_spec :
    (∀ (n : HeapProfileNode) (frames : List String),
      heapWalk n frames = (pathSizes n frames).filterMap lineOfPathSize) ∧
    (∀ p : SamplingHeapProfile, allZero p.head = true → convertHeapToFolded p = "") ∧
    convertHeapToFolded heapIdleProfile = "parent 512" := by
  refine ⟨heapWalk_eq_pathSizes, fun p hz => ?_, by decide⟩
  have hnil : heapWalk p.head [] = [] := by
    rw [heapWalk_eq_pathSizes, List.filterMap_eq_nil_iff]
    intro ps hps
    have h0 : ps.2 = 0 :=
      pathSizes_allZero_aux (sizeOf p.head) p.head le_rfl hz [] ps hps
    simp [lineOfPathSize, h0]
  rw [convertHeapToFolded, hnil]
  rfl

/-- Witness for C4: the all-zero clause applied to a concrete two-node
tree. -/
theorem convertHeapToFolded_spec_witness :
    convertHeapToFolded ⟨.mk 1 ⟨"(root)", "", -1⟩ 0 [.mk 2 ⟨"a", "", -1⟩ 0 []]⟩ = "" :=
  convertHeapToFolded_spec.2.1 ⟨.mk 1 ⟨"(root)", "", -1⟩ 0 [.mk 2 ⟨"a", "", -1⟩ 0 []]⟩
    (by decide)

/-! ## C7 -/

theorem walkLoop_length_le (ng : Nat → Option CdpNode) (pg : Nat → Option Nat) :
    ∀ (fuel : Nat) (cur : Option Nat), (walkLoop ng pg fuel cur).length ≤ fuel := by
  intro fuel
  induction fuel with
  | zero =>
    intro cur
    cases cur <;> simp [walkLoop]
  | succ f ih =>
    intro cur
    cases cur with
    | none => simp [walkLoop]
    | some id =>
      rw [walkLoop]
      cases hng : ng id with
      | none => simp
      | some node =>
        by_cases hr : isRoot node.callFrame.functionName = true
        · simp [hr]
        · rw [Bool.not_eq_true] at hr
          by_cases hsk : shouldSkipFrame node.callFrame.functionName node.callFrame.url = true
          · simp only [hr, Bool.false_eq_true, if_false, hsk, if_true]
            exact le_trans (ih (pg id)) (Nat.le_succ f)
          · rw [Bool.not_eq_true] at hsk
            simp only [hr, Bool.false_eq_true, if_false, hsk, List.length_cons]
            exact Nat.succ_le_succ (ih (pg id))

/-- Profile whose parent links loop (`2 → 3 → 2`): node 3 lists node 2 as a
child, so the reconstructed parent of 2 is 3 and the upward walk cycles. -/
def cyclicProfile : CdpProfile :=
  ⟨[mkNode 1 ("(root)") ("") (-1) (some [2]), mkNode 2 ("A") ("") (-1) (some [3]),
    mkNode 3 ("B") ("") (-1) (some [2])],
   0, 1000000, some [2], none⟩

set_option maxRecDepth 8192 in
/-- C7: the upward walk visits at most `MAX_DEPTH = 512` nodes for any
node/parent maps and any sample, so `convertToFolded` is total even on
malformed or cyclic parent links; on the cyclic profile the walk stops
exactly at the cap and the sample is still aggregated normally (one key,
ordinary rendering) rather than raising an error. -/
theorem convertToFolded_depth_capped :
    (∀ (ng : Nat → Option CdpNode) (pg : Nat → Option Nat) (fuel : Nat)
      (cur : Option Nat), (walkLoop ng pg fuel cur).length ≤ fuel) ∧
    (∀ (p : CdpProfile) (leafId : Nat),
      (collectedFrames p leafId).length ≤ MAX_DEPTH) ∧
    (collectedFrames cyclicProfile 2).length = MAX_DEPTH ∧
    (sampleKeys cyclicProfile).length = 1 ∧
    convertToFolded cyclicProfile = renderCounts (stackCounts cyclicProfile) := by
  refine ⟨fun ng pg fuel cur => walkLoop_length_le ng pg fuel cur,
    fun p leafId => ?_, by decide, by decide, rfl⟩
  rw [collectedFrames, List.length_reverse]
  exact walkLoop_length_le _ _ MAX_DEPTH (some leafId)

/-! ## C10 -/

/-- Profile whose only sample references id 99, which has no node
(test "handles node not found in nodeMap gracefully"). -/
def profMissing : CdpProfile :=
  ⟨[mkNode 1 ("(root)") ("") (-1) (some [2]), mkNode 2 ("knownFunc") ("") (-1) none],
   0, 1000000, some [99], none⟩

/-- C10: a missing node stops the upward walk without error — starting the
walk at an unknown id collects nothing, such a sample's stack key is
`none` (the sample is discarded), appending a sample with an unknown leaf
id to any profile leaves the folded output unchanged, and the profile
whose only sample references an unknown id converts to the empty
string. -/
theorem convertToFolded_missing_node :
    (∀ (ng : Nat → Option CdpNode) (pg : Nat → Option Nat) (fuel : Nat) (id : Nat),
      ng id = none → walkLoop ng pg fuel (some id) = []) ∧
    (∀ (p : CdpProfile) (id : Nat),
      jsMapGet (nodePairs p) id = none → stackKey p id = none) ∧
    (∀ (p : CdpProfile) (ss : List Nat) (id : Nat), p.samples = some ss →
      jsMapGet (nodePairs p) id = none →
      convertToFolded { p with samples := some (ss ++ [id]) } = convertToFolded p) ∧
    convertToFolded profMissing = "" := by
  have hwalk : ∀ (ng : Nat → Option CdpNode) (pg : Nat → Option Nat) (fuel : Nat)
      (id : Nat), ng id = none → walkLoop ng pg fuel (some id) = [] := by
    intro ng pg fuel id h
    cases fuel with
    | zero => rfl
    | succ f => rw [walkLoop, h]
  have hkey : ∀ (p : CdpProfile) (id : Nat),
      jsMapGet (nodePairs p) id = none → stackKey p id = none := by
    intro p id h
    rw [stackKey, collectedFrames, hwalk _ _ MAX_DEPTH id h]
    rfl
  refine ⟨hwalk, hkey, fun p ss id hs h => ?_, by decide⟩
  have hkeys : stackKey { p with samples := some (ss ++ [id]) } = stackKey p := by
    funext x
    rw [stackKey, stackKey, collectedFrames, collectedFrames, nodePairs, nodePairs,
      parentPairs, parentPairs]
  have hsk : sampleKeys { p with samples := some (ss ++ [id]) } = sampleKeys p := by
    rw [sampleKeys, sampleKeys, hs, hkeys]
    simp only [List.filterMap_append]
    have hid : List.filterMap (stackKey p) [id] = [] := by
      simp [List.filterMap, hkey p id h]
    rw [hid, List.append_nil]
  have h1 := convertToFolded_eq_renderCounts { p with samples := some (ss ++ [id]) }
    (ss ++ [id]) rfl
  have h2 := convertToFolded_eq_renderCounts p ss hs
  rw [h1, h2, stackCounts, stackCounts, hsk]

/-- Witness for C10: the discard and invariance clauses applied to the
concrete profile with the unknown id 99. -/
theorem convertToFolded_missing_node_witness :
    stackKey profMissing 99 = none ∧
    convertToFolded { profMissing with samples := some ([99] ++ [99]) } =
      convertToFolded profMissing :=
  ⟨convertToFolded_missing_node.2.1 profMissing 99 (by decide),
   convertToFolded_missing_node.2.2.1 profMissing [99] 99 rfl (by decide)⟩

/-! ## C8 -/

/-- 1000 samples over a one-second span. -/
def prof1000 : CdpProfile := ⟨[], 0, 1000000, some (List.replicate 1000 1), none⟩

/-- 1500 samples over a fifteen-second span. -/
def prof1500 : CdpProfile := ⟨[], 0, 15000000, some (List.replicate 1500 1), none⟩

theorem replicate_pos_ne_nil (n a : Nat) (h : 0 < n) : List.replicate n a ≠ [] := by
  intro hc
  have h9 := congrArg List.length hc
  rw [List.length_replicate] at h9
  simp only [List.length_nil] at h9
  omega

/-- C8: `calculateSampleRate` returns the rounded rate
`sampleCount / durationUs * 1_000_000` when samples are present and the
duration is positive, returns exactly 100 when samples are absent or empty
or the duration is non-positive, never returns a negative rate, and on the
concrete spans returns 1000 (1000 samples / 1 s) and 100
(1500 samples / 15 s). -/
theorem calculateSampleRate_spec :
    (∀ p : CdpProfile, p.samples = none → calculateSampleRate p = 100) ∧
    (∀ p : CdpProfile, p.samples = some [] → calculateSampleRate p = 100) ∧
    (∀ (p : CdpProfile) (ss : List Nat), p.samples = some ss → ss ≠ [] →
      p.endTime - p.startTime ≤ 0 → calculateSampleRate p = 100) ∧
    (∀ (p : CdpProfile) (ss : List Nat), p.samples = some ss → ss ≠ [] →
      0 < p.endTime - p.startTime →
      calculateSampleRate p =
        round ((ss.length : ℚ) / ((p.endTime - p.startTime : Int) : ℚ) * 1000000)) ∧
    (∀ p : CdpProfile, 0 ≤ calculateSampleRate p) ∧
    calculateSampleRate prof1000 = 1000 ∧
    calculateSampleRate prof1500 = 100 := by
  have hd : ∀ (p : CdpProfile) (ss : List Nat), p.samples = some ss → ss ≠ [] →
      calculateSampleRate p =
        (if p.endTime - p.startTime ≤ 0 then 100
         else round ((ss.length : ℚ) / ((p.endTime - p.startTime : Int) : ℚ) * 1000000)) := by
    intro p ss hs hne
    match ss, hne with
    | a :: tl, _ => simp [calculateSampleRate, hs]
  refine ⟨fun p hs => by simp [calculateSampleRate, hs],
    fun p hs => by simp [calculateSampleRate, hs],
    fun p ss hs hne hdur => by rw [hd p ss hs hne, if_pos hdur],
    fun p ss hs hne hdur => by rw [hd p ss hs hne, if_neg (by omega)],
    fun p => ?_, ?_, ?_⟩
  · rcases hs : p.samples with - | ss
    · simp [calculateSampleRate, hs]
    · rcases ss with - | ⟨a, tl⟩
      · simp [calculateSampleRate, hs]
      · rw [hd p (a :: tl) hs (by simp)]
        by_cases hdur : p.endTime - p.startTime ≤ 0
        · rw [if_pos hdur]
          omega
        · rw [if_neg hdur]
          have hq : (0 : ℚ) ≤ (((a :: tl).length : Nat) : ℚ) /
              ((p.endTime - p.startTime : Int) : ℚ) * 1000000 := by
            have hdpos : (0 : ℚ) < ((p.endTime - p.startTime : Int) : ℚ) := by
              rw [Int.cast_pos]
              omega
            positivity
          rw [round_eq]
          apply Int.floor_nonneg.2
          linarith
  · rw [hd prof1000 (List.replicate 1000 1) rfl (replicate_pos_ne_nil 1000 1 (by norm_num)),
      List.length_replicate]
    norm_num [prof1000]
  · rw [hd prof1500 (List.replicate 1500 1) rfl (replicate_pos_ne_nil 1500 1 (by norm_num)),
      List.length_replicate]
    norm_num [prof1500]

/-- Witness for C8: the theorem's clauses applied at concrete profiles. -/
theorem calculateSampleRate_spec_witness :
    calculateSampleRate ⟨[], 0, 0, none, none⟩ = 100 ∧
    calculateSampleRate ⟨[], 1000, 1000, some [1, 2, 3], none⟩ = 100 ∧
    calculateSampleRate prof1000 =
      round (((List.replicate 1000 1).length : ℚ) / ((1000000 - 0 : Int) : ℚ) * 1000000) :=
  ⟨calculateSampleRate_spec.1 ⟨[], 0, 0, none, none⟩ rfl,
   calculateSampleRate_spec.2.2.1 ⟨[], 1000, 1000, some [1, 2, 3], none⟩ [1, 2, 3] rfl
     (by decide) (by decide),
   calculateSampleRate_spec.2.2.2.1 prof1000 (List.replicate 1000 1) rfl
     (replicate_pos_ne_nil 1000 1 (by norm_num)) (by norm_num [prof1000])⟩

/-! ## C2 -/

/-- JavaScript `String.prototype.endsWith`. -/
def jsEndsWith (s suf : String) : Bool :=
  suf.data.isSuffixOf s.data

/-- C2 fails on the code: the stream type passed to `buildIngestUrl` (and
from there to `encodePyroscopeName` as a third argument) is dropped, so the
heap push of `flushHeapWindow` is encoded under the same `.cpu`-suffixed
name as the CPU push — the name never carries an `alloc_space` suffix —
while the fixed sampleRate of 1 does hold. -/
theorem heapPushName_is_cpu :
    (∀ (a : String) (ls : List (String × String)) (t t' : String),
      ingestName a ls t = ingestName a ls t') ∧
    (∀ (a : String) (ls : List (String × String)),
      (flushHeapPush a ls).2 = 1 ∧
        (flushHeapPush a ls).1 = ingestName a ls ("cpu")) ∧
    flushHeapPush ("test-app") [] = ("test-app.cpu", 1) ∧
    jsEndsWith (flushHeapPush ("test-app") []).1 (".cpu") = true ∧
    jsEndsWith (flushHeapPush ("test-app") []).1 ("alloc_space") = false :=
  ⟨fun a ls t t' => rfl, fun a ls => ⟨rfl, rfl⟩, by decide, by decide, by decide⟩

/-! ## C5 -/

theorem segDelays_cons (delays : List Nat) (attempt n : Nat) :
    delays ++ segDelays attempt (n + 1) =
      (if attempt > 0 then delays ++ [backoffDelay attempt] else delays) ++
        segDelays (attempt + 1) n := by
  cases attempt with
  | zero => simp [segDelays]
  | succ a => simp [segDelays, List.append_assoc]

theorem segDelays_base (delays : List Nat) (attempt : Nat) :
    (if attempt > 0 then delays ++ [backoffDelay attempt] else delays) =
      delays ++ segDelays attempt 0 := by
  cases attempt with
  | zero => simp [segDelays]
  | succ a => simp [segDelays]

theorem outcomeRetryable_split (o : FetchOutcome)
    (h : outcomeRetryable o = true) :
    outcomeOk o = false ∧ outcomeFatal o = false := by
  rw [outcomeRetryable, Bool.and_eq_true, Bool.not_eq_true', Bool.not_eq_true'] at h
  exact h

theorem retryLoop_ok (outcomes : Nat → FetchOutcome) :
    ∀ (n attempt fuel : Nat) (le : Option FetchOutcome) (delays : List Nat),
      n < fuel →
      (∀ m, m < n → outcomeRetryable (outcomes (attempt + m)) = true) →
      outcomeOk (outcomes (attempt + n)) = true →
      retryLoop outcomes attempt fuel le delays =
        .success (attempt + n + 1) (delays ++ segDelays attempt n) := by
  intro n
  induction n with
  | zero =>
    intro attempt fuel le delays hf _ hok
    rw [Nat.add_zero] at hok ⊢
    cases fuel with
    | zero => omega
    | succ f =>
      rw [← segDelays_base]
      cases h : outcomes attempt with
      | http s text =>
        rw [h, outcomeOk] at hok
        simp [retryLoop, h, hok]
      | netErr m =>
        rw [h] at hok
        simp [outcomeOk] at hok
  | succ n ih =>
    intro attempt fuel le delays hf hret hok
    cases fuel with
    | zero => omega
    | succ f =>
      have h0 := hret 0 (Nat.succ_pos n)
      rw [Nat.add_zero] at h0
      obtain ⟨hnok, hnfat⟩ := outcomeRetryable_split _ h0
      have hshift : ∀ m, m < n → outcomeRetryable (outcomes (attempt + 1 + m)) = true := by
        intro m hm
        have h1 := hret (m + 1) (by omega)
        rwa [show attempt + (m + 1) = attempt + 1 + m by omega] at h1
      have hok' : outcomeOk (outcomes (attempt + 1 + n)) = true := by
        rwa [show attempt + (n + 1) = attempt + 1 + n by omega] at hok
      have harith : attempt + 1 + n = attempt + (n + 1) := by omega
      cases h : outcomes attempt with
      | http s text =>
        rw [h, outcomeOk] at hnok
        rw [h, outcomeFatal] at hnfat
        have hres := ih (attempt + 1) f (some (.http s text))
          (if attempt > 0 then delays ++ [backoffDelay attempt] else delays)
          (by omega) hshift hok'
        rw [harith] at hres
        simp [retryLoop, h, hnok, hnfat, hres, segDelays_cons]
      | netErr m =>
        rw [h, outcomeFatal] at hnfat
        have hres := ih (attempt + 1) f (some (.netErr m))
          (if attempt > 0 then delays ++ [backoffDelay attempt] else delays)
          (by omega) hshift hok'
        rw [harith] at hres
        simp [retryLoop, h, hnfat, hres, segDelays_cons]

theorem retryLoop_fatal (outcomes : Nat → FetchOutcome) :
    ∀ (n attempt fuel : Nat) (le : Option FetchOutcome) (delays : List Nat),
      n < fuel →
      (∀ m, m < n → outcomeRetryable (outcomes (attempt + m)) = true) →
      outcomeFatal (outcomes (attempt + n)) = true →
      retryLoop outcomes attempt fuel le delays =
        .failure (outcomes (attempt + n)) (attempt + n + 1)
          (delays ++ segDelays attempt n) := by
  intro n
  induction n with
  | zero =>
    intro attempt fuel le delays hf _ hfat
    rw [Nat.add_zero] at hfat ⊢
    cases fuel with
    | zero => omega
    | succ f =>
      rw [← segDelays_base]
      cases h : outcomes attempt with
      | http s text =>
        rw [h, outcomeFatal] at hfat
        have h45 : 400 ≤ s ∧ s < 500 := by simpa using hfat
        have hnok : (decide (200 ≤ s) && decide (s ≤ 299)) = false := by
          simp only [Bool.and_eq_false_iff, decide_eq_false_iff_not]
          right
          omega
        simp [retryLoop, h, hnok, hfat]
      | netErr m =>
        rw [h, outcomeFatal] at hfat
        simp [retryLoop, h, hfat]
  | succ n ih =>
    intro attempt fuel le delays hf hret hfat
    cases fuel with
    | zero => omega
    | succ f =>
      have h0 := hret 0 (Nat.succ_pos n)
      rw [Nat.add_zero] at h0
      obtain ⟨hnok, hnfat⟩ := outcomeRetryable_split _ h0
      have hshift : ∀ m, m < n → outcomeRetryable (outcomes (attempt + 1 + m)) = true := by
        intro m hm
        have h1 := hret (m + 1) (by omega)
        rwa [show attempt + (m + 1) = attempt + 1 + m by omega] at h1
      have hfat' : outcomeFatal (outcomes (attempt + 1 + n)) = true := by
        rwa [show attempt + (n + 1) = attempt + 1 + n by omega] at hfat
      have harith : attempt + 1 + n = attempt + (n + 1) := by omega
      cases h : outcomes attempt with
      | http s text =>
        rw [h, outcomeOk] at hnok
        rw [h, outcomeFatal] at hnfat
        have hres := ih (attempt + 1) f (some (.http s text))
          (if attempt > 0 then delays ++ [backoffDelay attempt] else delays)
          (by omega) hshift hfat'
        rw [harith] at hres
        simp [retryLoop, h, hnok, hnfat, hres, segDelays_cons]
      | netErr m =>
        rw [h, outcomeFatal] at hnfat
        have hres := ih (attempt + 1) f (some (.netErr m))
          (if attempt > 0 then delays ++ [backoffDelay attempt] else delays)
          (by omega) hshift hfat'
        rw [harith] at hres
        simp [retryLoop, h, hnfat, hres, segDelays_cons]

theorem retryLoop_exhaust (outcomes : Nat → FetchOutcome) :
    ∀ (fuel attempt : Nat) (le : Option FetchOutcome) (delays : List Nat),
      0 < fuel →
      (∀ m, m < fuel → outcomeRetryable (outcomes (attempt + m)) = true) →
      retryLoop outcomes attempt fuel le delays =
        .failure (outcomes (attempt + fuel - 1)) (attempt + fuel)
          (delays ++ segDelays attempt (fuel - 1)) := by
  intro fuel
  induction fuel with
  | zero => intro attempt le delays hf; omega
  | succ f ih =>
    intro attempt le delays _ hret
    have h0 := hret 0 (Nat.succ_pos f)
    rw [Nat.add_zero] at h0
    obtain ⟨hnok, hnfat⟩ := outcomeRetryable_split _ h0
    cases f with
    | zero =>
      rw [show attempt + 1 - 1 = attempt by omega, ← segDelays_base]
      cases h : outcomes attempt with
      | http s text =>
        rw [h, outcomeOk] at hnok
        rw [h, outcomeFatal] at hnfat
        simp [retryLoop, h, hnok, hnfat]
      | netErr m =>
        rw [h, outcomeFatal] at hnfat
        simp [retryLoop, h, hnfat]
    | succ f2 =>
      have hshift : ∀ m, m < f2 + 1 → outcomeRetryable (outcomes (attempt + 1 + m)) = true := by
        intro m hm
        have h1 := hret (m + 1) (by omega)
        rwa [show attempt + (m + 1) = attempt + 1 + m by omega] at h1
      have har1 : attempt + 1 + (f2 + 1) - 1 = attempt + (f2 + 1 + 1) - 1 := by omega
      have har2 : attempt + 1 + (f2 + 1) = attempt + (f2 + 1 + 1) := by omega
      cases h : outcomes attempt with
      | http s text =>
        rw [h, outcomeOk] at hnok
        rw [h, outcomeFatal] at hnfat
        have hres := ih (attempt + 1) (some (.http s text))
          (if attempt > 0 then delays ++ [backoffDelay attempt] else delays)
          (Nat.succ_pos f2) hshift
        rw [show f2 + 1 - 1 = f2 by omega, har1, har2] at hres
        rw [show f2 + 1 + 1 - 1 = f2 + 1 by omega, segDelays_cons, ← hres]
        conv_lhs => rw [retryLoop]
        rw [h]
        simp [hnok, hnfat]
      | netErr m =>
        rw [h, outcomeFatal] at hnfat
        have hres := ih (attempt + 1) (some (.netErr m))
          (if attempt > 0 then delays ++ [backoffDelay attempt] else delays)
          (Nat.succ_pos f2) hshift
        rw [show f2 + 1 - 1 = f2 by omega, har1, har2] at hres
        rw [show f2 + 1 + 1 - 1 = f2 + 1 by omega, segDelays_cons, ← hres]
        conv_lhs => rw [retryLoop]
        rw [h]
        simp [hnfat]

theorem segDelays_range : ∀ (k a : Nat), segDelays (a + 1) k =
    (List.range (k + 1)).map (fun i => backoffDelay (a + 1 + i)) := by
  intro k
  induction k with
  | zero =>
    intro a
    simp [segDelays, List.range_succ, backoffDelay]
  | succ k ih =>
    intro a
    conv_rhs => rw [List.range_succ_eq_map]
    rw [segDelays, if_neg (Nat.succ_ne_zero a), ih (a + 1), List.map_cons,
      List.map_map]
    simp only [Nat.add_zero, List.singleton_append, List.cons.injEq, true_and]
    apply List.map_congr_left
    intro i _
    simp only [Function.comp_apply]
    congr 1
    omega

/-- C5 (amended): over any outcome sequence, `pushWithRetry` behaves as
follows. A 2xx response (after any run of retryable outcomes) terminates
retrying immediately with success; a 4xx response — or an error whose
message begins with `"HTTP 4"`, which the catch block re-throws even for
transport-level errors — causes zero further attempts and surfaces the
error immediately; every other 5xx / transport outcome is retried after
waiting `min(1000·2^(attempt-1), 30000)` ms, for at most `maxRetries`
additional attempts; and exhausting all retries surfaces the last error.
The recorded delay lists are exactly the claim's backoff formula applied
to attempts `1..n`. -/
theorem pushWithRetry_policy :
    (∀ k : Nat, backoffDelay k = min (1000 * 2 ^ (k - 1)) 30000) ∧
    (∀ (maxRetries n : Nat) (outcomes : Nat → FetchOutcome), n ≤ maxRetries →
      (∀ m, m < n → outcomeRetryable (outcomes m) = true) →
      outcomeOk (outcomes n) = true →
      pushWithRetry maxRetries outcomes = .success (n + 1) (segDelays 0 n)) ∧
    (∀ (maxRetries n : Nat) (outcomes : Nat → FetchOutcome), n ≤ maxRetries →
      (∀ m, m < n → outcomeRetryable (outcomes m) = true) →
      outcomeFatal (outcomes n) = true →
      pushWithRetry maxRetries outcomes =
        .failure (outcomes n) (n + 1) (segDelays 0 n)) ∧
    (∀ (maxRetries : Nat) (outcomes : Nat → FetchOutcome),
      (∀ m, m ≤ maxRetries → outcomeRetryable (outcomes m) = true) →
      pushWithRetry maxRetries outcomes =
        .failure (outcomes maxRetries) (maxRetries + 1) (segDelays 0 maxRetries)) ∧
    (segDelays 0 0 = [] ∧ ∀ n : Nat, segDelays 0 (n + 1) = segDelays 1 n) ∧
    (∀ (a k : Nat), segDelays (a + 1) k =
      (List.range (k + 1)).map (fun i => backoffDelay (a + 1 + i))) := by
  refine ⟨fun k => rfl, ?_, ?_, ?_, ⟨rfl, fun n => ?_⟩, fun a k => segDelays_range k a⟩
  · intro maxRetries n outcomes hn hret hok
    have h1 := retryLoop_ok outcomes n 0 (maxRetries + 1) none [] (by omega)
      (fun m hm => by rw [Nat.zero_add]; exact hret m hm)
      (by rw [Nat.zero_add]; exact hok)
    rw [pushWithRetry, h1, Nat.zero_add, List.nil_append]
  · intro maxRetries n outcomes hn hret hfat
    have h1 := retryLoop_fatal outcomes n 0 (maxRetries + 1) none [] (by omega)
      (fun m hm => by rw [Nat.zero_add]; exact hret m hm)
      (by rw [Nat.zero_add]; exact hfat)
    rw [pushWithRetry, h1, Nat.zero_add, List.nil_append]
  · intro maxRetries outcomes hret
    have h1 := retryLoop_exhaust outcomes (maxRetries + 1) 0 none [] (Nat.succ_pos _)
      (fun m hm => by rw [Nat.zero_add]; exact hret m (by omega))
    rw [pushWithRetry, h1, Nat.zero_add, List.nil_append,
      Nat.add_sub_cancel]
  · rw [segDelays, if_pos rfl, List.nil_append]

/-- Outcome sequence of the witness run: a 503 response, then a transport
error, then a 204 success. -/
def witnessOutcomes : Nat → FetchOutcome :=
  fun n => if n = 0 then .http 503 ("server error")
    else if n = 1 then .netErr ("connection reset") else .http 204 ("")

/-- Witness for C5: a 503 then a transport error are each retried with the
1000 ms and 2000 ms backoffs, and the 204 on attempt 2 succeeds. -/
theorem pushWithRetry_policy_witness :
    pushWithRetry 2 witnessOutcomes = .success 3 (segDelays 0 2) :=
  pushWithRetry_policy.2.1 2 2 witnessOutcomes (by decide) (by decide) (by decide)

/-- Outcome sequence refuting C5 as stated: the first attempt fails with a
TRANSPORT-level error whose message happens to begin with `"HTTP 4"`; a
retry would succeed with a 200. -/
def cexTransportOutcomes : Nat → FetchOutcome :=
  fun n => if n = 0 then .netErr ("HTTP 403 from upstream proxy") else .http 200 ("ok")

/-- Counterexample to C5 as stated: with `maxRetries = 1`, the
transport-level error is NOT retried — `pushWithRetry` surfaces it after a
single attempt with no backoff sleep — although the claim mandates a retry
(which would succeed on attempt 1 after a 1000 ms wait, i.e. produce
`.success 2 [1000]`). -/
theorem pushWithRetry_transport_not_retried :
    pushWithRetry 1 cexTransportOutcomes =
      .failure (.netErr ("HTTP 403 from upstream proxy")) 1 [] ∧
    outcomeOk (cexTransportOutcomes 1) = true ∧
    pushWithRetry 1 cexTransportOutcomes ≠ .success 2 [1000] :=
  ⟨by decide, by decide, by decide⟩

/-! ## C9 -/

theorem start_ok_running (i h : Bool) (s s1 : ProfState) (ev : List ProfEvent)
    (hstart : start i h s = (.ok s1, ev)) : s1.running = true := by
  by_cases hr : s.running = true
  · simp only [start, hr, if_true, Prod.mk.injEq, Except.ok.injEq] at hstart
    rw [← hstart.1]
    exact hr
  · rw [Bool.not_eq_true] at hr
    cases i with
    | false => simp [start, hr] at hstart
    | true =>
      simp only [start, hr, Bool.false_eq_true, if_false, Bool.not_true,
        Bool.not_false, if_true, beginWindow, Prod.mk.injEq, Except.ok.injEq] at hstart
      rw [← hstart.1]
      simp

/-- C9: `start()` and `stop()` are idempotent on the state machine. A
`start` on a running instance returns with only a warning — no connect, no
posts, state unchanged — so a second `start` after any successful `start`
is such a no-op; a `stop` on a non-running instance returns immediately —
no disconnect, no flush, state unchanged — and since `stop` always leaves
`running = false`, a second consecutive `stop` is such a no-op. -/
theorem start_stop_idempotent :
    (∀ (i h : Bool) (s : ProfState), s.running = true →
      start i h s = (.ok s, [.logWarn])) ∧
    (∀ (i h i' h' : Bool) (s s1 : ProfState) (ev : List ProfEvent),
      start i h s = (.ok s1, ev) → start i' h' s1 = (.ok s1, [.logWarn])) ∧
    (∀ s : ProfState, s.running = false → stop s = (s, [])) ∧
    (∀ s : ProfState, (stop s).1.running = false) ∧
    (∀ s : ProfState, stop (stop s).1 = ((stop s).1, [])) := by
  have ha : ∀ (i h : Bool) (s : ProfState), s.running = true →
      start i h s = (.ok s, [.logWarn]) := by
    intro i h s hr
    simp [start, hr]
  have hc : ∀ s : ProfState, s.running = false → stop s = (s, []) := by
    intro s hr
    simp [stop, hr]
  have hd : ∀ s : ProfState, (stop s).1.running = false := by
    intro s
    by_cases hr : s.running = true
    · by_cases hsess : s.hasSession = true
      · simp [stop, hr, hsess]
      · rw [Bool.not_eq_true] at hsess
        simp [stop, hr, hsess]
    · rw [Bool.not_eq_true] at hr
      simp [stop, hr]
  refine ⟨ha, fun i h i' h' s s1 ev hstart =>
      ha i' h' s1 (start_ok_running i h s s1 ev hstart),
    hc, hd, fun s => hc (stop s).1 (hd s)⟩

/-- Witness for C9: a freshly started instance ignores a second `start`,
and a stopped instance ignores a second `stop`. -/
theorem start_stop_idempotent_witness :
    start true true ⟨true, true, true, false, []⟩ =
      (.ok ⟨true, true, true, false, []⟩, [.logWarn]) ∧
    stop ⟨false, false, false, false, []⟩ = (⟨false, false, false, false, []⟩, []) ∧
    start true true ⟨true, true, true, false, [("k", "v")]⟩ =
      (.ok ⟨true, true, true, false, [("k", "v")]⟩, [.logWarn]) :=
  ⟨start_stop_idempotent.1 true true ⟨true, true, true, false, []⟩ rfl,
   start_stop_idempotent.2.2.1 ⟨false, false, false, false, []⟩ rfl,
   start_stop_idempotent.2.1 true true true true ⟨false, false, false, false, [("k", "v")]⟩
     ⟨true, true, true, false, [("k", "v")]⟩
     [.connect, .post ("Profiler.enable"), .post ("Profiler.setSamplingInterval"),
       .post ("Profiler.start"), .scheduleTimer] (by rfl)⟩

/-! ## C6 -/

/-- C6: for a `tag(extraLabels, fn)` call on a running instance with a live
session, whatever `fn` does (returns or throws — `outcome` — and whatever
timer state it leaves behind — `tf`): the outcome propagates unchanged, the
final label set is exactly the pre-tag label set, the instance is still
running with a freshly scheduled timer, the windows closed during the call
are pushed first under the pre-tag labels and then (the tagged window)
under the overlaid labels, and a timer pending at the end of `fn` is
cancelled. -/
theorem tag_scoped_labels {ε α : Type} :
    ∀ (s : ProfState) (extra : List (String × String)) (outcome : Except ε α)
      (tf : Bool), s.running = true → s.hasSession = true →
      (tag s extra outcome tf).1 = outcome ∧
      (tag s extra outcome tf).2.1.labels = s.labels ∧
      (tag s extra outcome tf).2.1.running = true ∧
      (tag s extra outcome tf).2.1.hasTimer = true ∧
      closeLabels (tag s extra outcome tf).2.2 =
        [s.labels, overlayLabels s.labels extra] ∧
      (tf = true → ProfEvent.clearTimer ∈ (tag s extra outcome tf).2.2) := by
  intro s extra outcome tf hr hsess
  refine ⟨?_, ?_, ?_, ?_, ?_, ?_⟩ <;>
    by_cases hheap : s.heapEnabled = true <;>
    by_cases htf : tf = true <;>
    by_cases ht : s.hasTimer = true <;>
    simp_all [tag, endWindowAndPush, beginWindow, closeLabels]

/-- Witness for C6: a throwing tagged function on a concrete running
instance propagates its error and restores the labels. -/
theorem tag_scoped_labels_witness :
    (tag ⟨true, true, true, false, [("service_name", "app")]⟩ [("route", "api")]
      (Except.error ("boom") : Except String Nat) false).1 = .error ("boom") ∧
    (tag ⟨true, true, true, false, [("service_name", "app")]⟩ [("route", "api")]
      (Except.error ("boom") : Except String Nat) false).2.1.labels =
      [("service_name", "app")] :=
  ⟨(tag_scoped_labels ⟨true, true, true, false, [("service_name", "app")]⟩
      [("route", "api")] (Except.error ("boom")) false rfl rfl).1,
   (tag_scoped_labels ⟨true, true, true, false, [("service_name", "app")]⟩
      [("route", "api")] (Except.error ("boom")) false rfl rfl).2.1⟩

end BunPyroscope
